import Mathlib

/-!
Shallow embedding of the git-operations plugin (config.ts / git.ts / index.ts).

JavaScript strings are modelled as Lean `String`; the handful of string
primitives the source uses (`startsWith`, `endsWith`, `includes`, `trim`,
`split("\n")`, `join("\n")`, truthiness, `a || b` on strings) are defined
below over `String.data` so that they are executable and easy to reason
about.  Subprocess execution is modelled by threading an arbitrary `World`
function (argument vector to process result) and recording every argument
vector that is actually handed to a child process in a `Spawns` list.
-/

namespace GitOps

-- ── JS string primitives ────────────────────────────────────────────

/-- Model of JS `s.startsWith(pre)`. -/
def jsStartsWith (s pre : String) : Bool := pre.data.isPrefixOf s.data

/-- Model of JS `s.endsWith(suf)`. -/
def jsEndsWith (s suf : String) : Bool := suf.data.isSuffixOf s.data

/-- Does `sub` occur as a contiguous sublist of the second argument? -/
def listContainsSub (sub : List Char) : List Char → Bool
  | [] => sub.isEmpty
  | c :: rest => sub.isPrefixOf (c :: rest) || listContainsSub sub rest

/-- Model of JS `s.includes(sub)`. -/
def jsIncludes (s sub : String) : Bool := listContainsSub sub.data s.data

/-- Model of JS `s.trim()`: strip leading and trailing whitespace. -/
def jsTrim (s : String) : String :=
  ⟨(((s.data.dropWhile Char.isWhitespace).reverse.dropWhile Char.isWhitespace).reverse)⟩

/-- Model of JS `a || b` on strings: `b` when `a` is empty (falsy), else `a`. -/
def jsOr (a b : String) : String := if a = "" then b else a

/-- Model of JS `text.split("\n")`. -/
def splitLines (s : String) : List String := (s.data.splitOn '\n').map fun l => ⟨l⟩

/-- Model of JS `lines.join("\n")`. -/
def joinLines (ls : List String) : String := ⟨List.intercalate ['\n'] (ls.map String.data)⟩

-- ── validators (git.ts) ─────────────────────────────────────────────

/-- The character class of `SHELL_META = /[;&|`$(){}!#~<>*?\[\]\n\r\\'"]/`. -/
def shellMetaChars : List Char :=
  [';', '&', '|', '\x60', '$', '(', ')', '\x7b', '\x7d', '!', '#', '~',
   '<', '>', '*', '?', '[', ']', '\n', '\r', '\\', '\x27', '\x22']

/-- Model of JS `SHELL_META.test(s)`: does `s` contain a shell metacharacter? -/
def hasShellMeta (s : String) : Bool := s.data.any fun c => shellMetaChars.contains c

/-- Membership in the character class of BRANCH_RE: ASCII letters, digits,
dot, underscore, slash, dash. -/
def isBranchChar (c : Char) : Bool :=
  ('a' ≤ c && c ≤ 'z') || ('A' ≤ c && c ≤ 'Z') || ('0' ≤ c && c ≤ '9') ||
  c = '.' || c = '_' || c = '/' || c = '-'

/-- Model of JS `BRANCH_RE.test(name)` (anchored, one or more branch characters). -/
def branchReTest (name : String) : Bool := !name.data.isEmpty && name.data.all isBranchChar

/-- Function `validateBranchName` from git.ts. -/
def validateBranchName (name : String) : Option String :=
  if name = "" then some "branch name cannot be empty"
  else if jsStartsWith name "-" then some "branch name cannot start with a dash (looks like a flag)"
  else if jsStartsWith name "." || jsEndsWith name "." || jsEndsWith name ".lock" then
    some "invalid branch name"
  else if jsIncludes name ".." || jsIncludes name "@\x7b" || jsIncludes name "~" ||
      jsIncludes name "^" || jsIncludes name " " then
    some "branch name contains invalid characters"
  else if !branchReTest name then
    some "branch name contains invalid characters — only a-z, 0-9, \x27.\x27, \x27_\x27, \x27/\x27, \x27-\x27 allowed"
  else none

/-- Function `validateFilePath` from git.ts.  The source contains a shell-metacharacter
test whose if-body is empty (dead code); only the emptiness and dash-prefix
rules take effect. -/
def validateFilePath (p : String) : Option String :=
  if p = "" then some "file path cannot be empty"
  else if jsStartsWith p "-" then some "file path cannot start with a dash"
  else none

/-- Function `validateRef` from git.ts. -/
def validateRef (ref : String) : Option String :=
  if ref = "" then some "ref cannot be empty"
  else if jsStartsWith ref "-" then some "ref cannot start with a dash"
  else if hasShellMeta ref then some "ref contains invalid characters"
  else none

/-- Modelled from the spec: `validateRemoteName` is imported by the plugin
from ./git.js but its definition is absent from the sources; per the spec it
applies the "same dash/metacharacter discipline as refs". -/
def validateRemoteName (remote : String) : Option String :=
  if remote = "" then some "remote name cannot be empty"
  else if jsStartsWith remote "-" then some "remote name cannot start with a dash"
  else if hasShellMeta remote then some "remote name contains invalid characters"
  else none

/-- Modelled from the spec: `validateLogFilter` is imported by the plugin
from ./git.js but its definition is absent from the sources; per the spec it
"rejects dash-prefixed values and shell metacharacters". -/
def validateLogFilter (value fieldName : String) : Option String :=
  if jsStartsWith value "-" then some (fieldName ++ " cannot start with a dash")
  else if hasShellMeta value then some (fieldName ++ " contains invalid characters")
  else none

/-- Modelled from the spec: `validateLabel` is imported by the plugin from
./git.js but its definition is absent from the sources; per the spec it
"rejects dash-prefixed and metacharacter-laden values". -/
def validateLabel (label : String) : Option String :=
  if jsStartsWith label "-" then some "label cannot start with a dash"
  else if hasShellMeta label then some "label contains invalid characters"
  else none

-- ── git command runner (git.ts) ─────────────────────────────────────

/-- Normalized subprocess result. -/
structure GitResult where
  stdout : String
  stderr : String
  exitCode : Int
deriving Repr, DecidableEq

/-- The behaviour of the outside world: what a spawned child process with a
given argument vector would produce. -/
abbrev World := List String → GitResult

/-- The argument vectors actually handed to child processes, in order. -/
abbrev Spawns := List (List String)

/-- Constant `ALLOWED_SUBCOMMANDS` from git.ts. -/
def ALLOWED_SUBCOMMANDS : List String :=
  ["status", "diff", "log", "branch", "add", "commit", "push", "pull",
   "stash", "blame", "rev-parse", "symbolic-ref", "remote", "checkout",
   "switch", "fetch", "merge", "rebase", "tag", "show", "config"]

/-- The result resolved when the subcommand is blocked (no child spawned).
`sub` is the string interpolated into the message (JS renders a missing
`args[0]` as "undefined"). -/
def blockedResult (sub : String) : GitResult :=
  ⟨"", "blocked: git subcommand \x27" ++ sub ++ "\x27 is not allowed", 1⟩

/-- Function `runGit` from git.ts: allowlist check, then spawn.  Returns the resolved
result together with the spawned argument vectors (empty when blocked). -/
def runGit (args : List String) (world : World) : GitResult × Spawns :=
  match args with
  | [] => (blockedResult "undefined", [])
  | sub :: _ =>
    if sub = "" || !ALLOWED_SUBCOMMANDS.contains sub then (blockedResult sub, [])
    else (world args, [args])

/-- Function `isGitRepo` from git.ts. -/
def isGitRepoM (world : World) : Bool × Spawns :=
  let r := runGit ["rev-parse", "--is-inside-work-tree"] world
  (r.1.exitCode == 0 && jsTrim r.1.stdout == "true", r.2)

/-- Function `getCurrentBranch` from git.ts. -/
def getCurrentBranchM (world : World) : Option String × Spawns :=
  let r := runGit ["symbolic-ref", "--short", "HEAD"] world
  if r.1.exitCode == 0 then (some (jsTrim r.1.stdout), r.2)
  else
    let rev := runGit ["rev-parse", "--short", "HEAD"] world
    if rev.1.exitCode == 0 then
      (some ("(detached at " ++ jsTrim rev.1.stdout ++ ")"), r.2 ++ rev.2)
    else (none, r.2 ++ rev.2)

def MAX_DIFF_LINES : Nat := 500
def MAX_LOG_ENTRIES : Nat := 200

/-- Function `truncateOutput` from git.ts. -/
def truncateOutput (text : String) (maxLines : Nat) (label : String) : String :=
  let lines := splitLines text
  if lines.length ≤ maxLines then text
  else
    let kept := lines.take maxLines
    let dropped := lines.length - maxLines
    joinLines (kept ++ ["\n... truncated (" ++ Nat.repr dropped ++ " more lines of " ++ label ++ ")"])

/-- Function `filterBinaryDiffs` from git.ts. -/
def filterBinaryDiffs (text : String) : String :=
  joinLines ((splitLines text).map fun line =>
    if jsStartsWith line "Binary files" && jsIncludes line "differ" then
      line ++ " [binary — skipped]"
    else line)

-- ── plugin configuration and tool plumbing (index.ts) ───────────────

/-- Plugin configuration, as resolved once at registration. -/
structure GitOpsConfig where
  allowForcePush : Bool
  allowMainCommit : Bool
  defaultRemote : String
  commitPrefix : String
  protectedBranches : List String
deriving Repr, DecidableEq

/-- The plugin helper `text(s)`; tool responses are modelled by their text. -/
def textOut (s : String) : String := s

/-- The plugin helper `err(s)`. -/
def errOut (s : String) : String := textOut ("error: " ++ s)

/-- Is a response an error response produced by `err`? -/
def isErrOut (s : String) : Bool := jsStartsWith s "error: "

/-- The plugin helper `isProtected(branch)`. -/
def isProtectedB (cfg : GitOpsConfig) (branch : String) : Bool :=
  cfg.protectedBranches.contains branch

/-- Response of every tool when `requireRepo` throws. -/
def notARepoMsg : String := "not a git repository (or any parent up to mount point)"

/-- Outcome of a JS async function: a normal return value or a thrown error. -/
inductive JsOut (α : Type) where
  | ret (a : α)
  | thrown (e : String)
deriving Repr, DecidableEq

/-- Result of running a tool that owns a temporary payload file: the
JS outcome, whether the invocation's temporary file still exists when
control returns to the caller, and the spawned argument vectors. -/
structure ExecOut where
  outcome : JsOut String
  tmpLeft : Bool
  spawns : Spawns
deriving Repr, DecidableEq

/-- Model of the `finally` clause `try { unlinkSync(file) } catch { }`:
the unlink removes the file when it exists, and the error thrown when it
does not exist is swallowed, so afterwards the file never exists. -/
def unlinkBestEffort (_fileExists : Bool) : Bool := false

-- ── git_branch tool (index.ts) ──────────────────────────────────────

/-- Parameters of the git_branch tool. -/
structure BranchParams where
  action : Option String
  name : Option String
  startPoint : Option String
  all : Bool
deriving Repr, DecidableEq

/-- The execute handler of the git_branch tool, returning the response
text and the spawned argument vectors. -/
def gitBranchExecute (cfg : GitOpsConfig) (p : BranchParams) (world : World) :
    String × Spawns :=
  let repo := isGitRepoM world
  if !repo.1 then (errOut notARepoMsg, repo.2)
  else
    let action := p.action.getD "list"
    if action == "list" then
      let args := ["branch", "-v"] ++ (if p.all then ["-a"] else [])
      let r := runGit args world
      if r.1.exitCode != 0 then (errOut r.1.stderr, repo.2 ++ r.2)
      else (textOut (jsOr r.1.stdout "no branches"), repo.2 ++ r.2)
    else
      match p.name with
      | none => (errOut ("branch name required for \x27" ++ action ++ "\x27"), repo.2)
      | some name =>
        if name == "" then
          (errOut ("branch name required for \x27" ++ action ++ "\x27"), repo.2)
        else
          match validateBranchName name with
          | some e => (errOut e, repo.2)
          | none =>
            if action == "create" then
              match p.startPoint with
              | some sp =>
                match validateRef sp with
                | some v => (errOut v, repo.2)
                | none =>
                  let r := runGit ["branch", name, sp] world
                  if r.1.exitCode != 0 then (errOut r.1.stderr, repo.2 ++ r.2)
                  else (textOut ("created branch \x27" ++ name ++ "\x27"), repo.2 ++ r.2)
              | none =>
                let r := runGit ["branch", name] world
                if r.1.exitCode != 0 then (errOut r.1.stderr, repo.2 ++ r.2)
                else (textOut ("created branch \x27" ++ name ++ "\x27"), repo.2 ++ r.2)
            else if action == "switch" then
              let r := runGit ["switch", name] world
              if r.1.exitCode != 0 then (errOut r.1.stderr, repo.2 ++ r.2)
              else (textOut ("switched to \x27" ++ name ++ "\x27"), repo.2 ++ r.2)
            else if action == "delete" then
              if isProtectedB cfg name then
                (errOut ("cannot delete protected branch \x27" ++ name ++ "\x27"), repo.2)
              else
                let r := runGit ["branch", "-d", name] world
                if r.1.exitCode != 0 then (errOut r.1.stderr, repo.2 ++ r.2)
                else (textOut ("deleted branch \x27" ++ name ++ "\x27"), repo.2 ++ r.2)
            else (errOut ("unknown action \x27" ++ action ++ "\x27"), repo.2)

-- ── git_push tool (index.ts) ────────────────────────────────────────

/-- Parameters of the git_push tool. -/
structure PushParams where
  remote : Option String
  branch : Option String
  force : Bool
  setUpstream : Bool
  dryRun : Bool
deriving Repr, DecidableEq

/-- Does the JS regex wholly match the branch string, where the regex is
anchored, begins with the literal text open-paren detached, ends with the
literal close-paren, and the dot matches anything except a line
terminator? -/
def detachedReMatches (b : String) : Bool :=
  jsStartsWith b "(detached" && jsEndsWith b ")" && 10 ≤ b.length &&
  ((b.data.drop 9).dropLast.all fun c =>
    !(c = '\n' || c = '\r' || c = '\u2028' || c = '\u2029'))

/-- JS `branch.replace(detached regex, "")`: the whole string is replaced
by the empty string when the regex matches, otherwise nothing changes. -/
def stripDetached (b : String) : String := if detachedReMatches b then "" else b

/-- The branch-name validation step of git_push: returns the error to
surface, if any.  Skipped entirely for falsy (empty) branch values, and its
verdict is ignored for detached-head placeholders. -/
def pushBranchCheck (branchOpt : Option String) : Option String :=
  match branchOpt with
  | none => none
  | some b =>
    if b == "" then none
    else
      match validateBranchName (stripDetached b) with
      | some e => if jsStartsWith b "(detached" then none else some e
      | none => none

/-- The argument vector git_push hands to `runGit` once all gates pass. -/
def pushArgs (p : PushParams) (remote : String) (branchOpt : Option String) :
    List String :=
  ["push"] ++ (if p.force then ["--force-with-lease"] else [])
    ++ (if p.setUpstream then ["-u"] else [])
    ++ (if p.dryRun then ["--dry-run"] else [])
    ++ [remote]
    ++ (match branchOpt with
        | some b => if b != "" && !jsStartsWith b "(detached" then [b] else []
        | none => [])

/-- The execute handler of the git_push tool. -/
def gitPushExecute (cfg : GitOpsConfig) (p : PushParams) (world : World) :
    String × Spawns :=
  let repo := isGitRepoM world
  if !repo.1 then (errOut notARepoMsg, repo.2)
  else
    let remote := p.remote.getD cfg.defaultRemote
    match validateRemoteName remote with
    | some e => (errOut e, repo.2)
    | none =>
      let resolved : Option String × Spawns :=
        match p.branch with
        | some b => (some b, [])
        | none => getCurrentBranchM world
      let branchOpt := resolved.1
      let log := repo.2 ++ resolved.2
      match pushBranchCheck branchOpt with
      | some e => (errOut e, log)
      | none =>
        let proceed : String × Spawns :=
          let r := runGit (pushArgs p remote branchOpt) world
          if r.1.exitCode != 0 then (errOut r.1.stderr, log ++ r.2)
          else (textOut (jsOr r.1.stderr (jsOr r.1.stdout "pushed successfully")), log ++ r.2)
        if p.force then
          if !cfg.allowForcePush then
            (errOut "force push is disabled. set allowForcePush: true in config to enable.", log)
          else
            match branchOpt with
            | some b =>
              if b != "" && isProtectedB cfg b then
                (errOut ("force push to protected branch \x27" ++ b ++ "\x27 is always blocked."), log)
              else proceed
            | none => proceed
        else proceed

-- ── git_commit tool (index.ts) ──────────────────────────────────────

/-- Parameters of the git_commit tool.  An absent `files` array and an
empty one are both modelled as the empty list (both skip staging). -/
structure CommitParams where
  message : String
  files : List String
  all : Bool
deriving Repr, DecidableEq

/-- The main-commit gate of git_commit: the branch must be truthy, commits
to protected branches must not be allowed, and the branch must be
protected, for the denial to fire. -/
def mainCommitGate (cfg : GitOpsConfig) (branch : Option String) : Option String :=
  match branch with
  | some b =>
    if b != "" && !cfg.allowMainCommit && isProtectedB cfg b then
      some ("direct commits to \x27" ++ b ++
        "\x27 are blocked. set allowMainCommit: true in config to override.")
    else none
  | none => none

/-- First validation failure over a list of file paths, with the offending
path, mirroring the staging loop of git_commit. -/
def firstPathError : List String → Option (String × String)
  | [] => none
  | f :: rest =>
    match validateFilePath f with
    | some v => some (f, v)
    | none => firstPathError rest

/-- The commit-message phase of git_commit: the temporary message file is
created inside a try block whose finally clause deletes it best-effort.
`writeThrows` says whether `writeFileSync` throws.  The middle component
tracks the existence of the temporary file. -/
def commitPhase (p : CommitParams) (world : World) (writeThrows : Bool)
    (msgFile : String) (log : Spawns) : ExecOut :=
  let body : JsOut String × Bool × Spawns :=
    if writeThrows then (.thrown "writeFileSync failed", true, log)
    else
      let args := if p.all then ["commit", "-a", "--file", msgFile]
                  else ["commit", "--file", msgFile]
      let r := runGit args world
      if r.1.exitCode != 0 then (.ret (errOut (jsOr r.1.stderr r.1.stdout)), true, log ++ r.2)
      else (.ret (textOut r.1.stdout), true, log ++ r.2)
  ⟨body.1, unlinkBestEffort body.2.1, body.2.2⟩

/-- The execute handler of the git_commit tool.  `msgFile` is the random
temporary file name generated for this invocation. -/
def gitCommitExecute (cfg : GitOpsConfig) (p : CommitParams) (world : World)
    (writeThrows : Bool) (msgFile : String) : ExecOut :=
  let repo := isGitRepoM world
  if !repo.1 then ⟨.ret (errOut notARepoMsg), false, repo.2⟩
  else
    let cur := getCurrentBranchM world
    let log := repo.2 ++ cur.2
    match mainCommitGate cfg cur.1 with
    | some msg => ⟨.ret (errOut msg), false, log⟩
    | none =>
      if p.files.isEmpty then commitPhase p world writeThrows msgFile log
      else
        match firstPathError p.files with
        | some fv => ⟨.ret (errOut ("invalid path \x27" ++ fv.1 ++ "\x27: " ++ fv.2)), false, log⟩
        | none =>
          let addR := runGit (["add", "--"] ++ p.files) world
          if addR.1.exitCode != 0 then
            ⟨.ret (errOut ("staging failed: " ++ addR.1.stderr)), false, log ++ addR.2⟩
          else commitPhase p world writeThrows msgFile (log ++ addR.2)

-- ── git_stash tool (index.ts) ───────────────────────────────────────

/-- Parameters of the git_stash tool.  The numeric `index` parameter is a
JS number; finite JS numbers are rationals, so it is modelled as `ℚ`. -/
structure StashParams where
  action : Option String
  message : Option String
  index : Option ℚ
deriving Repr, DecidableEq

/-- The stash reference string built by git_stash for a normalized index. -/
def stashRef (idx : Nat) : String := "stash@\x7b" ++ Nat.repr idx ++ "\x7d"

/-- Model of JS `Math.floor` on a finite JS number (a rational): the
numerator divided by the denominator with floor rounding (Lean integer
division by a positive denominator rounds toward negative infinity). -/
def jsMathFloor (q : ℚ) : ℤ := q.num / (q.den : ℤ)

/-- JS `Math.max(0, Math.floor(rawIdx))`, as a natural number:
`Int.toNat` clamps negatives to zero, which is exactly the max with 0. -/
def normStashIdx (rawIdx : ℚ) : Nat := (jsMathFloor rawIdx).toNat

/-- The execute handler of the git_stash tool. -/
def gitStashExecute (p : StashParams) (world : World) : String × Spawns :=
  let repo := isGitRepoM world
  if !repo.1 then (errOut notARepoMsg, repo.2)
  else
    let action := p.action.getD "push"
    let idx := normStashIdx (p.index.getD 0)
    if action == "list" then
      let r := runGit ["stash", "list"] world
      if r.1.exitCode != 0 then (errOut r.1.stderr, repo.2 ++ r.2)
      else (textOut (jsOr r.1.stdout "no stashes"), repo.2 ++ r.2)
    else if action == "push" then
      let args := ["stash", "push"] ++
        (match p.message with
         | some m => if m != "" then ["-m", m] else []
         | none => [])
      let r := runGit args world
      if r.1.exitCode != 0 then (errOut r.1.stderr, repo.2 ++ r.2)
      else (textOut (jsOr r.1.stdout "stashed"), repo.2 ++ r.2)
    else if action == "pop" then
      let r := runGit ["stash", "pop", stashRef idx] world
      if r.1.exitCode != 0 then (errOut r.1.stderr, repo.2 ++ r.2)
      else (textOut (jsOr r.1.stdout "popped stash"), repo.2 ++ r.2)
    else if action == "drop" then
      let r := runGit ["stash", "drop", stashRef idx] world
      if r.1.exitCode != 0 then (errOut r.1.stderr, repo.2 ++ r.2)
      else (textOut (jsOr r.1.stdout "dropped stash"), repo.2 ++ r.2)
    else if action == "show" then
      let r := runGit ["stash", "show", "-p", stashRef idx] world
      if r.1.exitCode != 0 then (errOut r.1.stderr, repo.2 ++ r.2)
      else (textOut (truncateOutput (filterBinaryDiffs r.1.stdout) MAX_DIFF_LINES "stash diff"), repo.2 ++ r.2)
    else (errOut ("unknown stash action \x27" ++ action ++ "\x27"), repo.2)

-- ── git_pr tool (index.ts) ──────────────────────────────────────────

/-- Parameters of the git_pr tool. -/
structure PrParams where
  title : String
  body : Option String
  base : Option String
  draft : Bool
  labels : List String
deriving Repr, DecidableEq

/-- First validation failure over a list of PR labels, mirroring the label
loop of git_pr. -/
def firstLabelError : List String → Option String
  | [] => none
  | l :: rest =>
    match validateLabel l with
    | some v => some v
    | none => firstLabelError rest

/-- The gh invocation at the end of the git_pr try block.  The spawned gh
argument vector is recorded with a leading "gh" marker. -/
def prGhRun (p : PrParams) (ghWorld : World) (args0 : List String) (log : Spawns) :
    JsOut String × Bool × Spawns :=
  let args1 := args0 ++ (if p.draft then ["--draft"] else [])
  let args := args1 ++
    (if !p.labels.isEmpty then ["--label", String.intercalate "," p.labels] else [])
  let r := ghWorld args
  if r.exitCode != 0 then (.ret (errOut (jsOr r.stderr r.stdout)), true, log ++ [["gh"] ++ args])
  else (.ret (textOut (jsOr r.stdout r.stderr)), true, log ++ [["gh"] ++ args])

/-- The PR-body phase of git_pr: the temporary body file is created inside
a try block whose finally clause deletes it best-effort; the base-branch
validation happens inside the try block, after the file exists. -/
def prBodyPhase (p : PrParams) (ghWorld : World) (writeThrows : Bool)
    (bodyFile : String) (log : Spawns) : ExecOut :=
  let body : JsOut String × Bool × Spawns :=
    if writeThrows then (.thrown "writeFileSync failed", true, log)
    else
      let args0 := ["pr", "create", "--title", p.title, "--body-file", bodyFile]
      match p.base with
      | some b =>
        match validateRef b with
        | some v => (.ret (errOut v), true, log)
        | none => prGhRun p ghWorld (args0 ++ ["--base", b]) log
      | none => prGhRun p ghWorld args0 log
  ⟨body.1, unlinkBestEffort body.2.1, body.2.2⟩

/-- The execute handler of the git_pr tool.  `ghOk` says whether the gh
CLI probe succeeds; `bodyFile` is the random temporary file name generated
for this invocation. -/
def gitPrExecute (p : PrParams) (world ghWorld : World)
    (ghOk writeThrows : Bool) (bodyFile : String) : ExecOut :=
  let repo := isGitRepoM world
  if !repo.1 then ⟨.ret (errOut notARepoMsg), false, repo.2⟩
  else if !ghOk then
    ⟨.ret (errOut "gh CLI is not installed. install it from https://cli.github.com/ to create PRs."), false, repo.2⟩
  else if jsStartsWith p.title "-" then
    ⟨.ret (errOut "PR title cannot start with a dash"), false, repo.2⟩
  else
    match firstLabelError p.labels with
    | some lv => ⟨.ret (errOut lv), false, repo.2⟩
    | none => prBodyPhase p ghWorld writeThrows bodyFile repo.2

-- ── helper lemmas ───────────────────────────────────────────────────

/-- A string with a dash prefix is nonempty. -/
theorem jsStartsWith_dash_ne_empty {s : String} (h : jsStartsWith s "-" = true) :
    s ≠ "" := by
  intro he
  subst he
  exact absurd h (by decide)

/-- Responses built by `errOut` satisfy `isErrOut`. -/
theorem isErrOut_errOut (s : String) : isErrOut (errOut s) = true := by
  have h2 : (errOut s).data = "error: ".data ++ s.data := by
    simp [errOut, textOut]
  rw [isErrOut, jsStartsWith, List.isPrefixOf_iff_prefix, h2]
  exact List.prefix_append _ _

/-- The stderr of a blocked `runGit` result starts with "blocked". -/
theorem blockedResult_starts (sub : String) :
    jsStartsWith (blockedResult sub).stderr "blocked" = true := by
  have h1 : "blocked".data <+: "blocked: git subcommand \x27".data := by decide
  have h2 : ((blockedResult sub).stderr).data
      = "blocked: git subcommand \x27".data ++ (sub.data ++ "\x27 is not allowed".data) := by
    simp [blockedResult]
  rw [jsStartsWith, List.isPrefixOf_iff_prefix, h2]
  exact h1.trans (List.prefix_append _ _)

/-- Everything `runGit` spawns is the argument vector it was given. -/
theorem runGit_spawn_mem (args : List String) (world : World) (a : List String)
    (h : a ∈ (runGit args world).2) : a = args := by
  cases args with
  | nil => simp [runGit] at h
  | cons sub rest =>
    unfold runGit at h
    rw [apply_ite Prod.snd] at h
    split at h
    · simp at h
    · simpa using h

/-- Everything the repository probe spawns is a rev-parse invocation. -/
theorem isGitRepoM_spawn_head (world : World) (a : List String)
    (h : a ∈ (isGitRepoM world).2) : a.head? = some "rev-parse" := by
  have := runGit_spawn_mem ["rev-parse", "--is-inside-work-tree"] world a
    (by simpa [isGitRepoM] using h)
  subst this; rfl

/-- Everything the current-branch probe spawns is a symbolic-ref or
rev-parse invocation. -/
theorem getCurrentBranchM_spawn_head (world : World) (a : List String)
    (h : a ∈ (getCurrentBranchM world).2) :
    a.head? = some "symbolic-ref" ∨ a.head? = some "rev-parse" := by
  unfold getCurrentBranchM at h
  simp only [apply_ite Prod.snd] at h
  split at h
  · left
    have := runGit_spawn_mem ["symbolic-ref", "--short", "HEAD"] world a (by simpa using h)
    subst this; rfl
  · split at h <;>
    · simp only [List.mem_append] at h
      rcases h with h | h
      · left
        have := runGit_spawn_mem ["symbolic-ref", "--short", "HEAD"] world a (by simpa using h)
        subst this; rfl
      · right
        have := runGit_spawn_mem ["rev-parse", "--short", "HEAD"] world a (by simpa using h)
        subst this; rfl

-- ── claim theorems ──────────────────────────────────────────────────

/-- C3: every string containing at least one shell metacharacter is
rejected (non-null reason) by each of validateRef, validateRemoteName,
validateLabel and validateLogFilter. -/
theorem shell_meta_rejected_everywhere (s fieldName : String)
    (h : hasShellMeta s = true) :
    validateRef s ≠ none ∧ validateRemoteName s ≠ none ∧
    validateLabel s ≠ none ∧ validateLogFilter s fieldName ≠ none := by
  refine ⟨?_, ?_, ?_, ?_⟩
  · unfold validateRef
    repeat' split
    all_goals simp_all
  · unfold validateRemoteName
    repeat' split
    all_goals simp_all
  · unfold validateLabel
    repeat' split
    all_goals simp_all
  · unfold validateLogFilter
    repeat' split
    all_goals simp_all

/-- Witness for C3 at the concrete string "a;b". -/
theorem shell_meta_rejected_everywhere_witness :
    hasShellMeta "a;b" = true ∧
    (validateRef "a;b" ≠ none ∧ validateRemoteName "a;b" ≠ none ∧
     validateLabel "a;b" ≠ none ∧ validateLogFilter "a;b" "author" ≠ none) :=
  ⟨by decide, shell_meta_rejected_everywhere "a;b" "author" (by decide)⟩

/-- C4: every dash-prefixed string is rejected by all six validators, and
validateFilePath accepts every non-empty string that is not dash-prefixed
(spaces and shell metacharacters included). -/
theorem dash_prefix_flag_injection (s fieldName : String) :
    (jsStartsWith s "-" = true →
      validateBranchName s ≠ none ∧ validateRef s ≠ none ∧
      validateRemoteName s ≠ none ∧ validateLogFilter s fieldName ≠ none ∧
      validateLabel s ≠ none ∧ validateFilePath s ≠ none) ∧
    (s ≠ "" → jsStartsWith s "-" = false → validateFilePath s = none) := by
  constructor
  · intro h
    have hne : s ≠ "" := jsStartsWith_dash_ne_empty h
    refine ⟨?_, ?_, ?_, ?_, ?_, ?_⟩ <;>
      simp [validateBranchName, validateRef, validateRemoteName,
        validateLogFilter, validateLabel, validateFilePath, h, hne]
  · intro h1 h2
    simp [validateFilePath, h1, h2]

/-- Witness for C4 at the concrete strings "-rf" and "a b;c". -/
theorem dash_prefix_flag_injection_witness :
    (jsStartsWith "-rf" "-" = true ∧ validateBranchName "-rf" ≠ none) ∧
    ("a b;c" ≠ "" ∧ jsStartsWith "a b;c" "-" = false ∧ validateFilePath "a b;c" = none) :=
  ⟨⟨by decide, ((dash_prefix_flag_injection "-rf" "author").1 (by decide)).1⟩,
   ⟨by decide, by decide, (dash_prefix_flag_injection "a b;c" "author").2 (by decide) (by decide)⟩⟩

/-- C5: when the first argument is absent, empty, or not in the fixed
subcommand allowlist, runGit resolves with exit code 1 and a stderr message
starting with "blocked", and spawns no child process. -/
theorem runGit_blocklist (args : List String) (world : World)
    (h : ∀ s, args.head? = some s → s = "" ∨ ¬ ALLOWED_SUBCOMMANDS.contains s) :
    (runGit args world).1.exitCode = 1 ∧
    jsStartsWith (runGit args world).1.stderr "blocked" = true ∧
    (runGit args world).2 = [] := by
  cases args with
  | nil => exact ⟨rfl, blockedResult_starts "undefined", rfl⟩
  | cons sub rest =>
    have hc := h sub rfl
    have hcond : (decide (sub = "") || !ALLOWED_SUBCOMMANDS.contains sub) = true := by
      rcases hc with h1 | h1 <;> simp_all
    simp only [runGit]
    rw [if_pos hcond]
    exact ⟨rfl, blockedResult_starts sub, rfl⟩

/-- Witness for C5 at the concrete non-allowlisted argument vector with
first element "rm". -/
theorem runGit_blocklist_witness :
    (runGit ["rm", "-rf"] (fun _ => ⟨"", "", 0⟩)).1.exitCode = 1 ∧
    jsStartsWith (runGit ["rm", "-rf"] (fun _ => ⟨"", "", 0⟩)).1.stderr "blocked" = true ∧
    (runGit ["rm", "-rf"] (fun _ => ⟨"", "", 0⟩)).2 = [] :=
  runGit_blocklist ["rm", "-rf"] (fun _ => ⟨"", "", 0⟩)
    (fun s hs => by
      simp only [List.head?] at hs
      cases hs
      exact Or.inr (by decide))

/-- Truncation is the identity on inputs whose line count is within the
limit. -/
theorem truncateOutput_noop {x : String} {n : Nat} {label : String}
    (h : (splitLines x).length ≤ n) : truncateOutput x n label = x := by
  unfold truncateOutput
  simp [h]

/-- C7 (counterexample): truncation is not idempotent as claimed — on the
four-line input "a\nb\nc\nd" with limit 1, a second truncation changes the
marker's dropped-line count from 3 to 2, because the marker line itself is
appended with a leading newline and so the truncated output has limit + 2
lines. -/
theorem truncate_idempotent_counterexample :
    truncateOutput (truncateOutput "a\nb\nc\nd" 1 "output") 1 "output" ≠
      truncateOutput "a\nb\nc\nd" 1 "output" := by decide

/-- C7 (amended): truncation is idempotent on every input whose line count
is within the limit, where it is the identity; on longer inputs a second
truncation rewrites the marker's dropped-line count to 2. -/
theorem truncate_idempotent_within_limit (x : String) (n : Nat) (label : String)
    (h : (splitLines x).length ≤ n) :
    truncateOutput (truncateOutput x n label) n label = truncateOutput x n label := by
  rw [truncateOutput_noop h, truncateOutput_noop h]

/-- Witness for the amended C7 at the concrete input "a\nb" with limit 5. -/
theorem truncate_idempotent_within_limit_witness :
    (splitLines "a\nb").length ≤ 5 ∧
    truncateOutput (truncateOutput "a\nb" 5 "output") 5 "output" =
      truncateOutput "a\nb" 5 "output" :=
  ⟨by decide, truncate_idempotent_within_limit "a\nb" 5 "output" (by decide)⟩

/-- The concrete 250-line input of the C8 scenario. -/
def logInput250 : String := joinLines (List.replicate 250 "a")

set_option maxRecDepth 8000 in
/-- C8 (counterexample): on 250 lines with limit 200 and label "log", the
result is not the first 200 lines followed by the single trailing line
with the ellipsis marker the claim states: the marker uses three ASCII
dots and is preceded by an extra empty line. -/
theorem truncate_250_log_spec_counterexample :
    truncateOutput logInput250 200 "log" ≠
      joinLines (List.replicate 200 "a" ++ ["… truncated (50 more lines of log)"]) := by
  decide

set_option maxRecDepth 8000 in
/-- C8 (amended): on 250 lines with limit 200 and label "log", the result
is the first 200 lines, then an empty line, then the ASCII-dots marker
line reporting 50 dropped lines of log. -/
theorem truncate_250_log_scenario :
    truncateOutput logInput250 200 "log" =
      joinLines (List.replicate 200 "a") ++ "\n\n... truncated (50 more lines of log)" := by
  decide

/-- C6: every git_commit and every git_pr invocation leaves no residual
temporary payload file when control returns to the caller, on every exit
path — normal success, validation error of fields checked after the file
exists, a failing subprocess, or a thrown write error — because the file
phase runs inside a try block whose finally clause deletes the file. -/
theorem temp_payload_always_deleted (cfg : GitOpsConfig) (pc : CommitParams)
    (pr : PrParams) (world ghWorld : World) (wt1 wt2 ghOk : Bool)
    (msgFile bodyFile : String) :
    (gitCommitExecute cfg pc world wt1 msgFile).tmpLeft = false ∧
    (gitPrExecute pr world ghWorld ghOk wt2 bodyFile).tmpLeft = false := by
  constructor
  · unfold gitCommitExecute commitPhase unlinkBestEffort
    lift_lets
    extract_lets
    repeat' split
    all_goals rfl
  · unfold gitPrExecute prBodyPhase prGhRun unlinkBestEffort
    lift_lets
    extract_lets
    repeat' split
    all_goals rfl

/-- A world in which the working directory is a git repository and the
current branch is main. -/
def worldRepoMain : World := fun args =>
  if args = ["rev-parse", "--is-inside-work-tree"] then ⟨"true\n", "", 0⟩
  else if args = ["symbolic-ref", "--short", "HEAD"] then ⟨"main\n", "", 0⟩
  else ⟨"", "", 0⟩

/-- The default configuration documented by the spec. -/
def cfgDefault : GitOpsConfig := ⟨false, false, "origin", "", ["main", "master"]⟩

/-- C9: when the current branch is a (nonempty) protected branch and
allowMainCommit is false, git_commit is denied with the message naming the
override flag and no commit subprocess is spawned; when allowMainCommit is
true or the branch is not protected, the main-commit gate does not deny. -/
theorem main_commit_gate_protection (cfg : GitOpsConfig) (p : CommitParams)
    (world : World) (wt : Bool) (msgFile : String) (b : String) :
    ((isGitRepoM world).1 = true → (getCurrentBranchM world).1 = some b → b ≠ "" →
      cfg.protectedBranches.contains b = true → cfg.allowMainCommit = false →
      (gitCommitExecute cfg p world wt msgFile).outcome =
        .ret (errOut ("direct commits to \x27" ++ b ++
          "\x27 are blocked. set allowMainCommit: true in config to override.")) ∧
      ∀ a ∈ (gitCommitExecute cfg p world wt msgFile).spawns, a.head? ≠ some "commit") ∧
    ((cfg.allowMainCommit = true ∨ cfg.protectedBranches.contains b = false) →
      mainCommitGate cfg (some b) = none) := by
  constructor
  · intro hrepo hbranch hb hprot hallow
    have hmem : b ∈ cfg.protectedBranches := by simpa using hprot
    have hgate : mainCommitGate cfg (getCurrentBranchM world).1
        = some ("direct commits to \x27" ++ b ++
          "\x27 are blocked. set allowMainCommit: true in config to override.") := by
      rw [hbranch]
      unfold mainCommitGate
      simp [hb, hallow, isProtectedB, hmem]
    have hred : gitCommitExecute cfg p world wt msgFile =
        ⟨.ret (errOut ("direct commits to \x27" ++ b ++
          "\x27 are blocked. set allowMainCommit: true in config to override.")),
         false, (isGitRepoM world).2 ++ (getCurrentBranchM world).2⟩ := by
      unfold gitCommitExecute
      simp [hrepo, hgate]
    rw [hred]
    refine ⟨rfl, ?_⟩
    intro a ha
    simp only [List.mem_append] at ha
    rcases ha with ha | ha
    · have h1 := isGitRepoM_spawn_head world a ha
      rw [h1]
      intro hcontra
      exact absurd (Option.some.inj hcontra) (by decide)
    · rcases getCurrentBranchM_spawn_head world a ha with h1 | h1 <;>
      · rw [h1]
        intro hcontra
        exact absurd (Option.some.inj hcontra) (by decide)
  · intro hcase
    unfold mainCommitGate
    rcases hcase with hc | hc
    · simp [hc]
    · have hm : b ∉ cfg.protectedBranches := by simpa using hc
      simp [isProtectedB, hm]

/-- Witness for C9: the default configuration denies a commit on main and
does not gate a feature branch. -/
theorem main_commit_gate_protection_witness :
    (gitCommitExecute cfgDefault ⟨"fix", [], false⟩ worldRepoMain false "msg.txt").outcome =
      .ret (errOut ("direct commits to \x27" ++ "main" ++
        "\x27 are blocked. set allowMainCommit: true in config to override.")) ∧
    mainCommitGate cfgDefault (some "feature-x") = none :=
  ⟨((main_commit_gate_protection cfgDefault ⟨"fix", [], false⟩ worldRepoMain false "msg.txt"
      "main").1 (by decide) (by decide) (by decide) (by decide) rfl).1,
   (main_commit_gate_protection cfgDefault ⟨"fix", [], false⟩ worldRepoMain false "msg.txt"
      "feature-x").2 (Or.inr (by decide))⟩

/-- The computable floor model agrees with the mathematical floor. -/
theorem jsMathFloor_eq_floor (q : ℚ) : jsMathFloor q = ⌊q⌋ := by
  conv_rhs => rw [← Rat.num_div_den q]
  rw [Rat.floor_intCast_div_natCast]
  rfl

/-- Clamping to natural numbers is taking the max with zero first. -/
theorem toNat_max0 (a : ℤ) : a.toNat = (max 0 a).toNat := by
  rcases le_total 0 a with h | h
  · rw [max_eq_right h]
  · rw [max_eq_left h, Int.toNat_of_nonpos h]
    rfl

/-- The normalized stash index is exactly max(0, floor(index)). -/
theorem normStashIdx_eq_max_floor (q : ℚ) :
    normStashIdx q = (max 0 ⌊q⌋).toNat := by
  unfold normStashIdx
  rw [jsMathFloor_eq_floor, toNat_max0]

/-- Data decomposition of the stash reference string. -/
theorem stashRef_data (n : Nat) :
    (stashRef n).data = "stash@\x7b".data ++ ((Nat.repr n).data ++ "\x7d".data) := by
  simp [stashRef]

/-- The stash reference never begins with a dash. -/
theorem stashRef_not_dash (n : Nat) : jsStartsWith (stashRef n) "-" = false := by
  unfold jsStartsWith
  rw [stashRef_data]
  rfl

/-- The stash reference always begins with the stash prefix. -/
theorem stashRef_well_formed (n : Nat) : jsStartsWith (stashRef n) "stash@" = true := by
  unfold jsStartsWith
  rw [stashRef_data]
  rfl

/-- C10: for pop, drop and show with any rational index, the stash
reference handed to the runner is exactly the normalized reference for
max(0, floor(index)), and that reference is neither dash-prefixed nor
malformed. -/
theorem stash_index_normalized (p : StashParams) (world : World) (q : ℚ)
    (hidx : p.index = some q) :
    normStashIdx q = (max 0 ⌊q⌋).toNat ∧
    ((p.action = some "pop" → ∀ a ∈ (gitStashExecute p world).2,
        a.head? = some "stash" → a = ["stash", "pop", stashRef (normStashIdx q)]) ∧
     (p.action = some "drop" → ∀ a ∈ (gitStashExecute p world).2,
        a.head? = some "stash" → a = ["stash", "drop", stashRef (normStashIdx q)]) ∧
     (p.action = some "show" → ∀ a ∈ (gitStashExecute p world).2,
        a.head? = some "stash" → a = ["stash", "show", "-p", stashRef (normStashIdx q)])) ∧
    jsStartsWith (stashRef (normStashIdx q)) "-" = false ∧
    jsStartsWith (stashRef (normStashIdx q)) "stash@" = true := by
  refine ⟨normStashIdx_eq_max_floor q, ⟨?_, ?_, ?_⟩,
    stashRef_not_dash _, stashRef_well_formed _⟩ <;>
  · intro hact a ha hh
    unfold gitStashExecute at ha
    simp only [hact, hidx, Option.getD_some] at ha
    simp [apply_ite Prod.snd] at ha
    split at ha
    · have h1 := isGitRepoM_spawn_head world a ha
      rw [h1] at hh
      exact absurd (Option.some.inj hh) (by decide)
    · rcases List.mem_append.mp ha with ha | ha
      · have h1 := isGitRepoM_spawn_head world a ha
        rw [h1] at hh
        exact absurd (Option.some.inj hh) (by decide)
      · exact runGit_spawn_mem _ world a ha

/-- The concrete stash request of the C10 witness: pop with index -3/2. -/
def pStashW : StashParams := ⟨some "pop", none, some (mkRat (-3) 2)⟩

/-- Witness for C10: index -3/2 normalizes to stash reference index 0, and
the constructed reference is well-formed. -/
theorem stash_index_normalized_witness :
    ["stash", "pop", "stash@\x7b0\x7d"]
      = ["stash", "pop", stashRef (normStashIdx (mkRat (-3) 2))] ∧
    jsStartsWith (stashRef (normStashIdx (mkRat (-3) 2))) "-" = false :=
  ⟨(stash_index_normalized pStashW worldRepoMain (mkRat (-3) 2) rfl).2.1.1 rfl
      ["stash", "pop", "stash@\x7b0\x7d"] (by decide) rfl,
   (stash_index_normalized pStashW worldRepoMain (mkRat (-3) 2) rfl).2.2.1⟩

-- ── consequences of passing validation ──────────────────────────────

/-- A branch name accepted by validateBranchName is nonempty. -/
theorem validateBranchName_none_ne_empty {b : String}
    (h : validateBranchName b = none) : b ≠ "" := by
  unfold validateBranchName at h
  repeat' split at h
  all_goals simp_all

/-- A branch name accepted by validateBranchName has no dash prefix. -/
theorem validateBranchName_none_not_dash {b : String}
    (h : validateBranchName b = none) : jsStartsWith b "-" = false := by
  unfold validateBranchName at h
  repeat' split at h
  all_goals simp_all

/-- A branch name accepted by validateBranchName passes the character
class test. -/
theorem validateBranchName_none_re {b : String}
    (h : validateBranchName b = none) : branchReTest b = true := by
  unfold validateBranchName at h
  repeat' split at h
  all_goals simp_all

/-- A branch name accepted by validateBranchName cannot carry the
detached-head prefix, whose first character is outside the branch
character class. -/
theorem validateBranchName_none_not_detached {b : String}
    (h : validateBranchName b = none) : jsStartsWith b "(detached" = false := by
  have hre := validateBranchName_none_re h
  cases hd : jsStartsWith b "(detached"
  · rfl
  · exfalso
    unfold jsStartsWith at hd
    rw [List.isPrefixOf_iff_prefix] at hd
    obtain ⟨t, ht⟩ := hd
    unfold branchReTest at hre
    rw [← ht] at hre
    simp only [Bool.and_eq_true, List.all_append] at hre
    exact absurd hre.2.1 (by decide)

/-- A remote name accepted by the modelled validateRemoteName has no dash
prefix. -/
theorem validateRemoteName_none_not_dash {r : String}
    (h : validateRemoteName r = none) : jsStartsWith r "-" = false := by
  unfold validateRemoteName at h
  repeat' split at h
  all_goals simp_all

/-- A string with no dash prefix is not the force flag. -/
theorem ne_force_of_not_dash {s : String} (h : jsStartsWith s "-" = false) :
    s ≠ "--force" := by
  intro he
  subst he
  exact absurd h (by decide)

/-- A branch name that passes validateBranchName passes the git_push
branch check. -/
theorem pushBranchCheck_none_of_valid {b : String}
    (hvb : validateBranchName b = none) : pushBranchCheck (some b) = none := by
  have hne := validateBranchName_none_ne_empty hvb
  have hnd := validateBranchName_none_not_detached hvb
  have hstrip : stripDetached b = b := by
    unfold stripDetached detachedReMatches
    rw [hnd]
    simp
  unfold pushBranchCheck
  simp [hstrip, hvb, hne]

/-- When the branch check passes and the branch is appended to the push
argument vector, the branch has no dash prefix. -/
theorem pushBranchCheck_none_appended_not_dash {b : String}
    (hchk : pushBranchCheck (some b) = none)
    (happ : (b != "" && !jsStartsWith b "(detached") = true) :
    jsStartsWith b "-" = false := by
  simp only [Bool.and_eq_true, bne_iff_ne, Bool.not_eq_true'] at happ
  have hstrip : stripDetached b = b := by
    unfold stripDetached detachedReMatches
    rw [happ.2]
    simp
  unfold pushBranchCheck at hchk
  cases hv : validateBranchName b with
  | none => exact validateBranchName_none_not_dash hv
  | some e =>
    simp [happ.1, happ.2, hstrip, hv] at hchk

/-- Membership in the combined probe spawn lists yields probe heads. -/
theorem probe_mem_head (world : World) (a : List String)
    (h : a ∈ (isGitRepoM world).2 ++ (getCurrentBranchM world).2) :
    a.head? = some "rev-parse" ∨ a.head? = some "symbolic-ref" := by
  rcases List.mem_append.mp h with h | h
  · exact Or.inl (isGitRepoM_spawn_head world a h)
  · rcases getCurrentBranchM_spawn_head world a h with h1 | h1
    · exact Or.inr h1
    · exact Or.inl h1

/-- Branch-probe spawns have probe heads, with room for a third
alternative. -/
theorem getCurrentBranchM_spawn_head_or {C : Prop} (world : World)
    (a : List String) (h : a ∈ (getCurrentBranchM world).2) :
    a.head? = some "rev-parse" ∨ a.head? = some "symbolic-ref" ∨ C := by
  rcases getCurrentBranchM_spawn_head world a h with h1 | h1
  · exact Or.inr (Or.inl h1)
  · exact Or.inl h1

/-- Probe-only disjunction: both memberships yield probe heads. -/
theorem probe_disj {C : Prop} (world : World) (a : List String)
    (h : a ∈ (isGitRepoM world).2 ∨ a ∈ (getCurrentBranchM world).2) :
    a.head? = some "rev-parse" ∨ a.head? = some "symbolic-ref" ∨ C := by
  rcases h with h1 | h1
  · exact Or.inl (isGitRepoM_spawn_head world a h1)
  · exact getCurrentBranchM_spawn_head_or world a h1

/-- Spawn disjunction over the repository probe and a runner call. -/
theorem spawn_disj2 {C : Prop} (world : World) (args a : List String)
    (h : a ∈ (isGitRepoM world).2 ∨ a ∈ (runGit args world).2)
    (hc : a = args → C) :
    a.head? = some "rev-parse" ∨ a.head? = some "symbolic-ref" ∨ C := by
  rcases h with h1 | h1
  · exact Or.inl (isGitRepoM_spawn_head world a h1)
  · exact Or.inr (Or.inr (hc (runGit_spawn_mem args world a h1)))

/-- Spawn disjunction over both probes and a runner call. -/
theorem spawn_disj3 {C : Prop} (world : World) (args a : List String)
    (h : a ∈ (isGitRepoM world).2 ∨ a ∈ (getCurrentBranchM world).2 ∨
      a ∈ (runGit args world).2)
    (hc : a = args → C) :
    a.head? = some "rev-parse" ∨ a.head? = some "symbolic-ref" ∨ C := by
  rcases h with h1 | h1 | h1
  · exact Or.inl (isGitRepoM_spawn_head world a h1)
  · exact getCurrentBranchM_spawn_head_or world a h1
  · exact Or.inr (Or.inr (hc (runGit_spawn_mem args world a h1)))

/-- When force is requested and either forcing is disabled or the request
names a nonempty protected branch, git_push ends in an error response and
spawns only read-only probes. -/
theorem gitPushExecute_force_denied (cfg : GitOpsConfig) (p : PushParams)
    (world : World) (hforce : p.force = true)
    (hdeny : cfg.allowForcePush = false ∨
      ∃ name, p.branch = some name ∧ name ≠ "" ∧ name ∈ cfg.protectedBranches) :
    ∃ e s, gitPushExecute cfg p world = (errOut e, s) ∧
      ∀ a ∈ s, a.head? = some "rev-parse" ∨ a.head? = some "symbolic-ref" := by
  cases hrepo : (isGitRepoM world).1 with
  | false =>
    refine ⟨notARepoMsg, (isGitRepoM world).2, ?_,
      fun a ha => Or.inl (isGitRepoM_spawn_head world a ha)⟩
    unfold gitPushExecute
    simp [hrepo]
  | true =>
    cases hrem : validateRemoteName (p.remote.getD cfg.defaultRemote) with
    | some e =>
      refine ⟨e, (isGitRepoM world).2, ?_,
        fun a ha => Or.inl (isGitRepoM_spawn_head world a ha)⟩
      unfold gitPushExecute
      simp [hrepo, hrem]
    | none =>
      cases hpb : p.branch with
      | some b0 =>
        cases hchk : pushBranchCheck (some b0) with
        | some e =>
          refine ⟨e, (isGitRepoM world).2, ?_,
            fun a ha => Or.inl (isGitRepoM_spawn_head world a ha)⟩
          unfold gitPushExecute
          simp [hrepo, hrem, hpb, hchk]
        | none =>
          cases hallow : cfg.allowForcePush with
          | false =>
            refine ⟨"force push is disabled. set allowForcePush: true in config to enable.",
              (isGitRepoM world).2, ?_,
              fun a ha => Or.inl (isGitRepoM_spawn_head world a ha)⟩
            unfold gitPushExecute
            simp [hrepo, hrem, hpb, hchk, hforce, hallow]
          | true =>
            rcases hdeny with hd | ⟨name, hname, hne, hprot⟩
            · rw [hallow] at hd
              cases hd
            · rw [hpb] at hname
              injection hname with hname
              subst hname
              refine ⟨"force push to protected branch \x27" ++ b0 ++ "\x27 is always blocked.",
                (isGitRepoM world).2, ?_,
                fun a ha => Or.inl (isGitRepoM_spawn_head world a ha)⟩
              unfold gitPushExecute
              simp [hrepo, hrem, hpb, hchk, hforce, hallow, hne, isProtectedB, hprot]
      | none =>
        cases hchk : pushBranchCheck (getCurrentBranchM world).1 with
        | some e =>
          refine ⟨e, (isGitRepoM world).2 ++ (getCurrentBranchM world).2, ?_,
            probe_mem_head world⟩
          unfold gitPushExecute
          simp [hrepo, hrem, hpb, hchk]
        | none =>
          cases hallow : cfg.allowForcePush with
          | false =>
            refine ⟨"force push is disabled. set allowForcePush: true in config to enable.",
              (isGitRepoM world).2 ++ (getCurrentBranchM world).2, ?_,
              probe_mem_head world⟩
            unfold gitPushExecute
            simp [hrepo, hrem, hpb, hchk, hforce, hallow]
          | true =>
            rcases hdeny with hd | ⟨name, hname, hne, hprot⟩
            · rw [hallow] at hd
              cases hd
            · rw [hpb] at hname
              cases hname

/-- Every argument vector git_push spawns is either a read-only probe or
the final push vector built from a validated remote and a branch value
that passed the branch check. -/
theorem gitPushExecute_spawn_shape (cfg : GitOpsConfig) (p : PushParams)
    (world : World) (a : List String) (h : a ∈ (gitPushExecute cfg p world).2) :
    a.head? = some "rev-parse" ∨ a.head? = some "symbolic-ref" ∨
    ∃ branchOpt : Option String,
      validateRemoteName (p.remote.getD cfg.defaultRemote) = none ∧
      pushBranchCheck branchOpt = none ∧
      a = pushArgs p (p.remote.getD cfg.defaultRemote) branchOpt := by
  cases hrepo : (isGitRepoM world).1 with
  | false =>
    unfold gitPushExecute at h
    simp [hrepo, apply_ite Prod.snd] at h
    exact Or.inl (isGitRepoM_spawn_head world a h)
  | true =>
    cases hrem : validateRemoteName (p.remote.getD cfg.defaultRemote) with
    | some e =>
      unfold gitPushExecute at h
      simp [hrepo, hrem, apply_ite Prod.snd] at h
      exact Or.inl (isGitRepoM_spawn_head world a h)
    | none =>
      cases hpb : p.branch with
      | some b0 =>
        cases hchk : pushBranchCheck (some b0) with
        | some e =>
          unfold gitPushExecute at h
          simp [hrepo, hrem, hpb, hchk, apply_ite Prod.snd] at h
          exact Or.inl (isGitRepoM_spawn_head world a h)
        | none =>
          unfold gitPushExecute at h
          simp [hrepo, hrem, hpb, hchk, apply_ite Prod.snd] at h
          repeat' split at h
          all_goals try simp only [List.mem_append] at h
          all_goals
            first
            | exact Or.inl (isGitRepoM_spawn_head world a h)
            | exact probe_disj world a h
            | exact spawn_disj2 world _ a h (fun he => ⟨some b0, rfl, hchk, he⟩)
      | none =>
        cases hchk : pushBranchCheck (getCurrentBranchM world).1 with
        | some e =>
          unfold gitPushExecute at h
          simp [hrepo, hrem, hpb, hchk, apply_ite Prod.snd] at h
          rcases h with h1 | h1
          · exact Or.inl (isGitRepoM_spawn_head world a h1)
          · rcases getCurrentBranchM_spawn_head world a h1 with h2 | h2
            · exact Or.inr (Or.inl h2)
            · exact Or.inl h2
        | none =>
          unfold gitPushExecute at h
          simp [hrepo, hrem, hpb, hchk, apply_ite Prod.snd] at h
          repeat' split at h
          all_goals try dsimp only at h
          all_goals try simp only [List.mem_append] at h
          all_goals
            first
            | exact Or.inl (isGitRepoM_spawn_head world a h)
            | exact probe_disj world a h
            | exact spawn_disj2 world _ a h
                (fun he => ⟨(getCurrentBranchM world).1, rfl, hchk, he⟩)
            | exact spawn_disj3 world _ a h
                (fun he => ⟨(getCurrentBranchM world).1, rfl, hchk, he⟩)

/-- With force requested, the push argument vector carries the
lease-based flag. -/
theorem pushArgs_has_lease (p : PushParams) (remote : String)
    (bo : Option String) (hforce : p.force = true) :
    "--force-with-lease" ∈ pushArgs p remote bo := by
  unfold pushArgs
  simp [hforce]

/-- The push argument vector never contains the unconditional force flag,
given that the remote passed validation and any appended branch has no
dash prefix. -/
theorem pushArgs_no_force (p : PushParams) (remote : String) (bo : Option String)
    (hrm : jsStartsWith remote "-" = false)
    (hb : ∀ b, bo = some b → (b != "" && !jsStartsWith b "(detached") = true →
      jsStartsWith b "-" = false) :
    "--force" ∉ pushArgs p remote bo := by
  intro hmem
  unfold pushArgs at hmem
  rcases List.mem_append.mp hmem with h | h
  · rcases List.mem_append.mp h with h | h
    · rcases List.mem_append.mp h with h | h
      · rcases List.mem_append.mp h with h | h
        · rcases List.mem_append.mp h with h | h
          · simp at h
          · revert h
            split <;> simp
        · revert h
          split <;> simp
      · revert h
        split <;> simp
    · simp only [List.mem_singleton] at h
      subst h
      exact absurd hrm (by decide)
  · cases bo with
    | none => simp at h
    | some b =>
      by_cases hcond : (b != "" && !jsStartsWith b "(detached") = true
      · simp only [hcond, if_true] at h
        simp only [List.mem_singleton] at h
        subst h
        exact absurd (hb "--force" rfl hcond) (by decide)
      · simp [hcond] at h

/-- The concrete push request of the C2 scenario: force onto feature-x. -/
def pPushW : PushParams := ⟨none, some "feature-x", true, false, false⟩

/-- C2 (counterexample): with allowForcePush disabled, the forced push on
feature-x is denied with the message naming the override flag, yet the
spawn list is not empty — the repository probe ran as a subprocess — so
the claim that no subprocess is spawned is false as stated. -/
theorem force_push_gate_spec_counterexample :
    cfgDefault.allowForcePush = false ∧ pPushW.force = true ∧
    (gitPushExecute cfgDefault pPushW worldRepoMain).1 =
      errOut "force push is disabled. set allowForcePush: true in config to enable." ∧
    (gitPushExecute cfgDefault pPushW worldRepoMain).2 ≠ [] := by decide

/-- C2 (amended): for every forced push, if allowForcePush is false the
request is denied with an error — exactly the message naming the override
flag when the repository, remote and branch inputs are themselves in
order — and no push subprocess is spawned (read-only probe subprocesses
may still run); if allowForcePush is true, every spawned push vector
contains the lease-based flag and never the unconditional force flag. -/
theorem force_push_gate (cfg : GitOpsConfig) (p : PushParams) (world : World)
    (hforce : p.force = true) :
    (cfg.allowForcePush = false →
      isErrOut (gitPushExecute cfg p world).1 = true ∧
      ∀ a ∈ (gitPushExecute cfg p world).2, a.head? ≠ some "push") ∧
    (cfg.allowForcePush = false → (isGitRepoM world).1 = true →
      validateRemoteName (p.remote.getD cfg.defaultRemote) = none →
      ∀ b, p.branch = some b → validateBranchName b = none →
      (gitPushExecute cfg p world).1 =
        errOut "force push is disabled. set allowForcePush: true in config to enable.") ∧
    (cfg.allowForcePush = true →
      ∀ a ∈ (gitPushExecute cfg p world).2, a.head? = some "push" →
        "--force-with-lease" ∈ a ∧ "--force" ∉ a) := by
  refine ⟨?_, ?_, ?_⟩
  · intro hallow
    obtain ⟨e, s, heq, hheads⟩ :=
      gitPushExecute_force_denied cfg p world hforce (Or.inl hallow)
    rw [heq]
    refine ⟨isErrOut_errOut e, ?_⟩
    intro a ha hcontra
    rcases hheads a ha with h1 | h1 <;>
      exact absurd (Option.some.inj (h1.symm.trans hcontra)) (by decide)
  · intro hallow hrepo hrem b hpb hvb
    have hchk := pushBranchCheck_none_of_valid hvb
    unfold gitPushExecute
    simp [hrepo, hrem, hpb, hchk, hforce, hallow]
  · intro hallow a ha hh
    rcases gitPushExecute_spawn_shape cfg p world a ha with h1 | h1 | ⟨bo, hrm, hchk, haeq⟩
    · exact absurd (Option.some.inj (h1.symm.trans hh)) (by decide)
    · exact absurd (Option.some.inj (h1.symm.trans hh)) (by decide)
    · subst haeq
      refine ⟨pushArgs_has_lease p _ bo hforce, ?_⟩
      exact pushArgs_no_force p _ bo (validateRemoteName_none_not_dash hrm)
        (fun b hbo happ => pushBranchCheck_none_appended_not_dash (hbo ▸ hchk) happ)

/-- Witness for the amended C2 in the scenario of the spec: the denial
message names allowForcePush. -/
theorem force_push_gate_witness :
    (gitPushExecute cfgDefault pPushW worldRepoMain).1 =
      errOut "force push is disabled. set allowForcePush: true in config to enable." :=
  (force_push_gate cfgDefault pPushW worldRepoMain rfl).2.1 rfl (by decide) (by decide)
    "feature-x" rfl (by decide)

/-- The configuration of the C1 counterexample: the empty string is
listed as a protected branch and force pushes are enabled. -/
def cfgEmptyProt : GitOpsConfig := ⟨true, false, "origin", "", [""]⟩

/-- The push request of the C1 counterexample: force with branch "". -/
def pPushEmpty : PushParams := ⟨none, some "", true, false, false⟩

/-- C1 (counterexample): with the empty string configured as protected
and allowForcePush enabled, a forced push naming that entry is not denied
— the truthiness check skips empty branch values, so the protected-branch
gate never fires — and a push subprocess is spawned with the lease flag. -/
theorem protected_branch_counterexample :
    "" ∈ cfgEmptyProt.protectedBranches ∧ pPushEmpty.force = true ∧
    pPushEmpty.branch = some "" ∧
    isErrOut (gitPushExecute cfgEmptyProt pPushEmpty worldRepoMain).1 = false ∧
    ["push", "--force-with-lease", "origin"] ∈
      (gitPushExecute cfgEmptyProt pPushEmpty worldRepoMain).2 := by decide

/-- C1 (amended): for every nonempty branch name in protectedBranches,
a git_branch delete request naming it is denied with an error and spawns
only the repository probe, and a git_push force request naming it is
denied with an error and spawns no push subprocess, regardless of
allowForcePush, allowMainCommit and every other configuration field. -/
theorem protected_branch_invariant (cfg : GitOpsConfig) (bp : BranchParams)
    (pp : PushParams) (world : World) (name : String)
    (hname : name ∈ cfg.protectedBranches) (hne : name ≠ "") :
    (bp.action = some "delete" → bp.name = some name →
      isErrOut (gitBranchExecute cfg bp world).1 = true ∧
      ∀ a ∈ (gitBranchExecute cfg bp world).2, a.head? = some "rev-parse") ∧
    (pp.force = true → pp.branch = some name →
      isErrOut (gitPushExecute cfg pp world).1 = true ∧
      ∀ a ∈ (gitPushExecute cfg pp world).2, a.head? ≠ some "push") := by
  constructor
  · intro hact hnameq
    cases hrepo : (isGitRepoM world).1 with
    | false =>
      have heq : gitBranchExecute cfg bp world = (errOut notARepoMsg, (isGitRepoM world).2) := by
        unfold gitBranchExecute
        simp [hrepo]
      rw [heq]
      exact ⟨isErrOut_errOut _, fun a ha => isGitRepoM_spawn_head world a ha⟩
    | true =>
      cases hv : validateBranchName name with
      | some e =>
        have heq : gitBranchExecute cfg bp world = (errOut e, (isGitRepoM world).2) := by
          unfold gitBranchExecute
          simp [hrepo, hact, hnameq, hne, hv]
        rw [heq]
        exact ⟨isErrOut_errOut _, fun a ha => isGitRepoM_spawn_head world a ha⟩
      | none =>
        have heq : gitBranchExecute cfg bp world =
            (errOut ("cannot delete protected branch \x27" ++ name ++ "\x27"),
             (isGitRepoM world).2) := by
          unfold gitBranchExecute
          simp [hrepo, hact, hnameq, hne, hv, isProtectedB, hname]
        rw [heq]
        exact ⟨isErrOut_errOut _, fun a ha => isGitRepoM_spawn_head world a ha⟩
  · intro hforce hpb
    obtain ⟨e, s, heq, hheads⟩ := gitPushExecute_force_denied cfg pp world hforce
      (Or.inr ⟨name, hpb, hne, hname⟩)
    rw [heq]
    refine ⟨isErrOut_errOut e, ?_⟩
    intro a ha hcontra
    rcases hheads a ha with h1 | h1 <;>
      exact absurd (Option.some.inj (h1.symm.trans hcontra)) (by decide)

/-- Witness for the amended C1: with the default configuration, deleting
main and force-pushing main are both denied. -/
theorem protected_branch_invariant_witness :
    isErrOut (gitBranchExecute cfgDefault ⟨some "delete", some "main", none, false⟩
      worldRepoMain).1 = true ∧
    isErrOut (gitPushExecute cfgDefault ⟨none, some "main", true, false, false⟩
      worldRepoMain).1 = true :=
  ⟨((protected_branch_invariant cfgDefault ⟨some "delete", some "main", none, false⟩
      ⟨none, some "main", true, false, false⟩ worldRepoMain "main"
      (by decide) (by decide)).1 rfl rfl).1,
   ((protected_branch_invariant cfgDefault ⟨some "delete", some "main", none, false⟩
      ⟨none, some "main", true, false, false⟩ worldRepoMain "main"
      (by decide) (by decide)).2 rfl rfl).1⟩

end GitOps
